import Mathlib

/-!
Verification of the dash2hlsd repository: a shallow embedding of the
DASH→HLS translator's core algorithms (timeline merge, segment-at-playhead
lookup, downloader retry loop, cache eviction sweep, key service, HLS media
playlist generation, and the per-channel session state operations), with
theorems settling the specification claims against the code.

Conventions:
- Go `uint64` values are modelled as `Nat`; arithmetic that can wrap is
  performed modulo `2 ^ 64` (`uadd`, `umul`, `uofInt`).
- Go maps are modelled as association lists with overwrite-on-insert;
  iteration-order-dependent results are only used after sorting by a key
  that is unique in the map, so the model is deterministic exactly where
  the Go code is.
- Go byte slices are `List Nat`.
-/

namespace D2H

/-- 2^64 modular addition, modelling Go `uint64` `+`. -/
def uadd (a b : Nat) : Nat := (a + b) % 2 ^ 64

/-- 2^64 modular multiplication, modelling Go `uint64` `*`. -/
def umul (a b : Nat) : Nat := (a * b) % 2 ^ 64

/-- Go conversion `uint64(i)` of a Go `int`. -/
def uofInt (i : Int) : Nat := (i % (2 : Int) ^ 64).toNat

/-- DASH `S` element of a `SegmentTimeline`: start tick `T`, duration `D`
(Go `uint64`), repeat count `R` (Go `int`). From `internal/dash` model. -/
structure S where
  T : Nat
  D : Nat
  R : Int
deriving DecidableEq, Repr

/-- DASH `SegmentTimeline`: list of `S` tuples. -/
structure SegmentTimeline where
  segments : List S
deriving DecidableEq, Repr

/-- Comparison by start tick, the order used by `MergeTimelines`' final sort. -/
def leT (a b : S) : Prop := a.T ≤ b.T

/-- Strict version of `leT`, for stating strict sortedness. -/
def ltT (a b : S) : Prop := a.T < b.T

instance : DecidableRel leT := fun a b => inferInstanceAs (Decidable (a.T ≤ b.T))

instance : DecidableRel ltT := fun a b => inferInstanceAs (Decidable (a.T < b.T))

instance : IsTotal S leT := ⟨fun a b => Nat.le_total a.T b.T⟩

instance : IsTrans S leT := ⟨fun _ _ _ => Nat.le_trans⟩

/-- Go map insert `m[k] = v` on an association-list model: overwrite the
entry with key `k` if present, otherwise add the pair. -/
def mapInsert : List (Nat × S) → Nat → S → List (Nat × S)
  | [], k, v => [(k, v)]
  | p :: m, k, v => if p.1 = k then (k, v) :: m else p :: mapInsert m k v

/-- The `seen` map built by `MergeTimelines`: fold a segment list into the
map, keying each tuple by its `T` (later inserts overwrite). -/
def seenMap (l : List S) (m : List (Nat × S)) : List (Nat × S) :=
  l.foldl (fun acc s => mapInsert acc s.T s) m

/-- `MergeTimelines` from `internal/dash/timeline.go`: insert the old then
the new timeline's tuples into a map keyed by `t` (new overwrites old),
then return the values sorted ascending by `t`. -/
def mergeTimelines (oldTl newTl : SegmentTimeline) : SegmentTimeline :=
  ⟨List.insertionSort leT ((seenMap newTl.segments (seenMap oldTl.segments [])).map Prod.snd)⟩

/-- Last tuple in `l` whose `T` equals `t` (map semantics: the last insert
for a key wins). -/
def valueAt : List S → Nat → Option S
  | [], _ => none
  | s :: l, t =>
    match valueAt l t with
    | some v => some v
    | none => if s.T = t then some s else none

/-- Lookup in the association-list map model. -/
def lookupKey : List (Nat × S) → Nat → Option S
  | [], _ => none
  | p :: m, t => if p.1 = t then some p.2 else lookupKey m t

/-- Left-biased choice on options, used to state "new wins, else old". -/
def orO (a b : Option S) : Option S :=
  match a with
  | some v => some v
  | none => b

/-- Well-formedness of the map model: every entry is keyed by its value's
`T`, and keys are distinct. -/
def GoodMap (m : List (Nat × S)) : Prop :=
  (∀ p ∈ m, p.2.T = p.1) ∧ (m.map Prod.fst).Nodup

theorem mapInsert_keys (m : List (Nat × S)) (k : Nat) (v : S) :
    (mapInsert m k v).map Prod.fst = if k ∈ m.map Prod.fst then m.map Prod.fst else m.map Prod.fst ++ [k] := by
  induction m with
  | nil => simp [mapInsert]
  | cons p m ih =>
    by_cases h : p.1 = k
    · subst h
      simp [mapInsert]
    · have hkp : ¬k = p.1 := fun hh => h hh.symm
      simp only [mapInsert, if_neg h, List.map_cons, ih, List.mem_cons]
      by_cases hk : k ∈ m.map Prod.fst
      · simp [hk, hkp]
      · simp [hk, hkp]

theorem mapInsert_mem (m : List (Nat × S)) (k : Nat) (v : S) :
    ∀ p ∈ mapInsert m k v, p = (k, v) ∨ p ∈ m := by
  induction m with
  | nil => simp [mapInsert]
  | cons q m ih =>
    intro p hp
    by_cases h : q.1 = k
    · simp only [mapInsert, if_pos h, List.mem_cons] at hp
      rcases hp with hp | hp
      · exact Or.inl hp
      · exact Or.inr (List.mem_cons_of_mem _ hp)
    · simp only [mapInsert, if_neg h, List.mem_cons] at hp
      rcases hp with hp | hp
      · exact Or.inr (by simp [hp])
      · rcases ih p hp with hh | hh
        · exact Or.inl hh
        · exact Or.inr (List.mem_cons_of_mem _ hh)

theorem mapInsert_good (m : List (Nat × S)) (k : Nat) (v : S) (hm : GoodMap m) (hv : v.T = k) :
    GoodMap (mapInsert m k v) := by
  obtain ⟨h1, h2⟩ := hm
  constructor
  · intro p hp
    rcases mapInsert_mem m k v p hp with hh | hh
    · subst hh; exact hv
    · exact h1 p hh
  · rw [mapInsert_keys]
    by_cases hk : k ∈ m.map Prod.fst
    · simpa [hk] using h2
    · simp only [if_neg hk]
      simp only [List.nodup_append, List.nodup_cons, List.nodup_nil]
      exact ⟨h2, by simp, by simpa [List.disjoint_singleton] using hk⟩

theorem lookupKey_mapInsert (m : List (Nat × S)) (k : Nat) (v : S) (t : Nat) :
    lookupKey (mapInsert m k v) t = if t = k then some v else lookupKey m t := by
  induction m with
  | nil =>
    by_cases h : t = k
    · subst h; simp [mapInsert, lookupKey]
    · have h' : ¬k = t := fun hh => h hh.symm
      simp [mapInsert, lookupKey, h, h']
  | cons p m ih =>
    by_cases hpk : p.1 = k
    · subst hpk
      by_cases h : t = p.1
      · subst h; simp [mapInsert, lookupKey]
      · have h' : ¬p.1 = t := fun hh => h hh.symm
        simp [mapInsert, lookupKey, h, h']
    · by_cases hpt : p.1 = t
      · have h : ¬t = k := fun hh => hpk (hpt.trans hh)
        simp [mapInsert, if_neg hpk, lookupKey, hpt, h]
      · simp [mapInsert, if_neg hpk, lookupKey, hpt, ih]

theorem seenMap_lookup (l : List S) (m : List (Nat × S)) (t : Nat) :
    lookupKey (seenMap l m) t = orO (valueAt l t) (lookupKey m t) := by
  induction l generalizing m with
  | nil => simp [seenMap, valueAt, orO]
  | cons s l ih =>
    show lookupKey (seenMap l (mapInsert m s.T s)) t = _
    rw [ih, lookupKey_mapInsert]
    cases hv : valueAt l t with
    | some v => simp [valueAt, orO, hv]
    | none =>
      by_cases h : t = s.T
      · subst h; simp [valueAt, orO, hv]
      · have h' : ¬s.T = t := fun hh => h hh.symm
        simp [valueAt, orO, hv, h, h']

theorem seenMap_good (l : List S) (m : List (Nat × S)) (hm : GoodMap m) :
    GoodMap (seenMap l m) := by
  induction l generalizing m with
  | nil => exact hm
  | cons s l ih => exact ih _ (mapInsert_good m s.T s hm rfl)

theorem valueAt_append (l₁ l₂ : List S) (t : Nat) :
    valueAt (l₁ ++ l₂) t = orO (valueAt l₂ t) (valueAt l₁ t) := by
  induction l₁ with
  | nil =>
    cases h : valueAt l₂ t <;> simp [valueAt, orO, h]
  | cons s l ih =>
    show valueAt (s :: (l ++ l₂)) t = _
    cases h2 : valueAt l₂ t with
    | some v => simp [valueAt, ih, h2, orO]
    | none =>
      cases h1 : valueAt l t with
      | some v => simp [valueAt, ih, h2, h1, orO]
      | none => simp [valueAt, ih, h2, h1, orO]

theorem valueAt_some_mem : ∀ (l : List S) (t : Nat) (v : S), valueAt l t = some v → v ∈ l ∧ v.T = t := by
  intro l t v
  induction l with
  | nil => intro h; cases h
  | cons s l ih =>
    intro h
    simp only [valueAt] at h
    cases hv : valueAt l t with
    | some w =>
      rw [hv] at h
      injection h with h
      subst h
      have hw := ih hv
      exact ⟨List.mem_cons_of_mem _ hw.1, hw.2⟩
    | none =>
      rw [hv] at h
      by_cases hst : s.T = t
      · rw [if_pos hst] at h
        injection h with h
        subst h
        exact ⟨List.mem_cons_self _ _, hst⟩
      · rw [if_neg hst] at h
        cases h

theorem valueAt_eq_none_iff (l : List S) (t : Nat) :
    valueAt l t = none ↔ ∀ s ∈ l, s.T ≠ t := by
  induction l with
  | nil => simp [valueAt]
  | cons s l ih =>
    constructor
    · intro h x hx
      simp only [valueAt] at h
      cases hv : valueAt l t with
      | some w => rw [hv] at h; cases h
      | none =>
        rw [hv] at h
        by_cases hst : s.T = t
        · rw [if_pos hst] at h; cases h
        · rcases List.mem_cons.mp hx with rfl | hh
          · exact hst
          · exact ih.mp hv x hh
    · intro h
      have hnone : valueAt l t = none := ih.mpr (fun x hx => h x (List.mem_cons_of_mem _ hx))
      have hst : s.T ≠ t := h s (List.mem_cons_self _ _)
      simp [valueAt, hnone, hst]

theorem valueAt_of_mem : ∀ (l : List S), (l.map S.T).Nodup → ∀ s ∈ l, valueAt l s.T = some s := by
  intro l
  induction l with
  | nil => intro _ s hs; cases hs
  | cons a l ih =>
    intro hnd s hs
    have hnd' : (l.map S.T).Nodup := by simpa using hnd.of_cons
    have hka : a.T ∉ l.map S.T := by
      simp only [List.map_cons, List.nodup_cons] at hnd
      exact hnd.1
    rcases List.mem_cons.mp hs with rfl | hh
    · have hnone : valueAt l s.T = none := by
        rw [valueAt_eq_none_iff]
        intro x hx he
        exact hka (he ▸ List.mem_map_of_mem S.T hx)
      simp [valueAt, hnone]
    · have hsome := ih hnd' s hh
      simp [valueAt, hsome]

theorem valueAt_eq_some_iff (l : List S) (hnd : (l.map S.T).Nodup) (s : S) (t : Nat) :
    valueAt l t = some s ↔ (s ∈ l ∧ s.T = t) := by
  constructor
  · exact valueAt_some_mem l t s
  · rintro ⟨hmem, rfl⟩
    exact valueAt_of_mem l hnd s hmem

theorem valueAt_perm {l₁ l₂ : List S} (h : l₁.Perm l₂) (hnd : (l₁.map S.T).Nodup) (t : Nat) :
    valueAt l₁ t = valueAt l₂ t := by
  have hnd₂ : (l₂.map S.T).Nodup := ((h.map S.T).nodup_iff).mp hnd
  cases hv : valueAt l₁ t with
  | some s =>
    have hm := (valueAt_eq_some_iff l₁ hnd s t).mp hv
    exact ((valueAt_eq_some_iff l₂ hnd₂ s t).mpr ⟨h.mem_iff.mp hm.1, hm.2⟩).symm
  | none =>
    have hm := (valueAt_eq_none_iff l₁ t).mp hv
    exact ((valueAt_eq_none_iff l₂ t).mpr (fun s hs => hm s (h.mem_iff.mpr hs))).symm

theorem lookupKey_some_key : ∀ (M : List (Nat × S)) (t : Nat) (v : S),
    lookupKey M t = some v → t ∈ M.map Prod.fst := by
  intro M t v
  induction M with
  | nil => intro h; cases h
  | cons p M ih =>
    intro h
    simp only [lookupKey] at h
    by_cases hp : p.1 = t
    · simp [hp]
    · rw [if_neg hp] at h
      simp only [List.map_cons, List.mem_cons]
      exact Or.inr (ih h)

theorem lookupKey_eq_valueAt_values : ∀ (M : List (Nat × S)), GoodMap M → ∀ t,
    valueAt (M.map Prod.snd) t = lookupKey M t := by
  intro M
  induction M with
  | nil => intro _ t; simp [valueAt, lookupKey]
  | cons p M ih =>
    intro h t
    obtain ⟨h1, h2⟩ := h
    have hgood : GoodMap M := ⟨fun q hq => h1 q (List.mem_cons_of_mem _ hq), by simpa using h2.of_cons⟩
    have hpT : p.2.T = p.1 := h1 p (List.mem_cons_self _ _)
    have hknotin : p.1 ∉ M.map Prod.fst := by
      simp only [List.map_cons, List.nodup_cons] at h2
      exact h2.1
    simp only [List.map_cons, valueAt, lookupKey]
    rw [ih hgood t]
    cases hv : lookupKey M t with
    | some v =>
      have htmem : t ∈ M.map Prod.fst := lookupKey_some_key M t v hv
      have hne : ¬p.1 = t := fun hh => hknotin (hh ▸ htmem)
      simp [hne]
    | none =>
      by_cases hh : p.1 = t
      · have hpt2 : p.2.T = t := hpT.trans hh
        simp [hh, hpt2]
      · have hpt2 : ¬p.2.T = t := by rw [hpT]; exact hh
        simp [hh, hpt2]

theorem goodMap_merge (oldTl newTl : SegmentTimeline) :
    GoodMap (seenMap newTl.segments (seenMap oldTl.segments [])) :=
  seenMap_good _ _ (seenMap_good _ _ ⟨by simp, by simp⟩)

theorem merge_values_nodupT (oldTl newTl : SegmentTimeline) :
    (((seenMap newTl.segments (seenMap oldTl.segments [])).map Prod.snd).map S.T).Nodup := by
  obtain ⟨h1, h2⟩ := goodMap_merge oldTl newTl
  have : ((seenMap newTl.segments (seenMap oldTl.segments [])).map Prod.snd).map S.T
      = (seenMap newTl.segments (seenMap oldTl.segments [])).map Prod.fst := by
    rw [List.map_map]
    exact List.map_congr_left (fun p hp => h1 p hp)
  rw [this]
  exact h2

theorem merge_perm (oldTl newTl : SegmentTimeline) :
    (mergeTimelines oldTl newTl).segments.Perm
      ((seenMap newTl.segments (seenMap oldTl.segments [])).map Prod.snd) :=
  List.perm_insertionSort leT _

theorem merge_nodupT (oldTl newTl : SegmentTimeline) :
    ((mergeTimelines oldTl newTl).segments.map S.T).Nodup :=
  (((merge_perm oldTl newTl).map S.T).nodup_iff).mpr (merge_values_nodupT oldTl newTl)

theorem merge_sorted (oldTl newTl : SegmentTimeline) :
    List.Pairwise ltT (mergeTimelines oldTl newTl).segments := by
  have hle : List.Pairwise leT (mergeTimelines oldTl newTl).segments :=
    List.sorted_insertionSort leT _
  have hne : List.Pairwise (fun a b : S => a.T ≠ b.T) (mergeTimelines oldTl newTl).segments :=
    (List.pairwise_map).mp (merge_nodupT oldTl newTl)
  exact (hle.and hne).imp (fun h => lt_of_le_of_ne h.1 h.2)

theorem merge_valueAt (oldTl newTl : SegmentTimeline) (t : Nat) :
    valueAt (mergeTimelines oldTl newTl).segments t
      = orO (valueAt newTl.segments t) (valueAt oldTl.segments t) := by
  have hperm := merge_perm oldTl newTl
  have h1 : valueAt (mergeTimelines oldTl newTl).segments t
      = valueAt ((seenMap newTl.segments (seenMap oldTl.segments [])).map Prod.snd) t :=
    valueAt_perm hperm (merge_nodupT oldTl newTl) t
  rw [h1, lookupKey_eq_valueAt_values _ (goodMap_merge oldTl newTl), seenMap_lookup,
    seenMap_lookup]
  cases hn : valueAt newTl.segments t with
  | some v => simp [orO]
  | none =>
    cases ho : valueAt oldTl.segments t with
    | some v => simp [orO]
    | none => simp [orO, lookupKey]

theorem mapInsert_existing (m : List (Nat × S)) (k : Nat) (v : S)
    (hnd : (m.map Prod.fst).Nodup) (hmem : (k, v) ∈ m) :
    mapInsert m k v = m := by
  induction m with
  | nil => cases hmem
  | cons p m ih =>
    have hknotin : p.1 ∉ m.map Prod.fst := by
      simp only [List.map_cons, List.nodup_cons] at hnd
      exact hnd.1
    rcases List.mem_cons.mp hmem with hh | hh
    · rw [← hh]
      simp [mapInsert]
    · have hne : ¬p.1 = k := by
        intro he
        exact hknotin (he ▸ (List.mem_map_of_mem Prod.fst hh))
      simp only [mapInsert, if_neg hne]
      rw [ih (by simpa using hnd.of_cons) hh]

theorem seenMap_existing (l : List S) (m : List (Nat × S))
    (hnd : (m.map Prod.fst).Nodup) (hmem : ∀ s ∈ l, (s.T, s) ∈ m) :
    seenMap l m = m := by
  induction l with
  | nil => rfl
  | cons s l ih =>
    show seenMap l (mapInsert m s.T s) = m
    rw [mapInsert_existing m s.T s hnd (hmem s (List.mem_cons_self _ _))]
    exact ih (fun x hx => hmem x (List.mem_cons_of_mem _ hx))

theorem mapInsert_fresh (m : List (Nat × S)) (k : Nat) (v : S)
    (hfresh : k ∉ m.map Prod.fst) :
    mapInsert m k v = m ++ [(k, v)] := by
  induction m with
  | nil => rfl
  | cons p m ih =>
    have hne : ¬p.1 = k := by
      intro he
      exact hfresh (by simp [he])
    simp only [mapInsert, if_neg hne, List.cons_append, List.cons.injEq, true_and]
    exact ih (fun hh => hfresh (by simp [hh]))

theorem seenMap_fresh (l : List S) (m : List (Nat × S))
    (hfresh : ∀ s ∈ l, s.T ∉ m.map Prod.fst) (hnd : (l.map S.T).Nodup) :
    seenMap l m = m ++ l.map (fun s => (s.T, s)) := by
  induction l generalizing m with
  | nil => simp [seenMap]
  | cons s l ih =>
    show seenMap l (mapInsert m s.T s) = _
    rw [mapInsert_fresh m s.T s (hfresh s (List.mem_cons_self _ _))]
    rw [ih (m ++ [(s.T, s)]) ?hf (by simpa using hnd.of_cons)]
    · simp
    case hf =>
      intro x hx
      simp only [List.map_append, List.mem_append, List.map_cons]
      rintro (hh | hh)
      · exact hfresh x (List.mem_cons_of_mem _ hx) hh
      · simp only [List.map_cons, List.nodup_cons] at hnd
        simp only [List.map_nil, List.mem_singleton] at hh
        exact hnd.1 (hh ▸ List.mem_map_of_mem S.T hx)

theorem merge_idem (a : SegmentTimeline) (ha : List.Pairwise ltT a.segments) :
    mergeTimelines a a = a := by
  have hndT : (a.segments.map S.T).Nodup :=
    (List.pairwise_map).mpr (ha.imp (fun h => Nat.ne_of_lt h))
  have h1 : seenMap a.segments [] = a.segments.map (fun s => (s.T, s)) := by
    have := seenMap_fresh a.segments [] (by simp) hndT
    simpa using this
  have hkeys : (a.segments.map (fun s => (s.T, s))).map Prod.fst = a.segments.map S.T := by
    rw [List.map_map]; rfl
  have h2 : seenMap a.segments (a.segments.map (fun s => (s.T, s)))
      = a.segments.map (fun s => (s.T, s)) :=
    seenMap_existing _ _ (hkeys ▸ hndT) (fun s hs => List.mem_map_of_mem _ hs)
  have hvals : (a.segments.map (fun s => (s.T, s))).map Prod.snd = a.segments := by
    rw [List.map_map]
    calc a.segments.map (Prod.snd ∘ fun s => (s.T, s))
        = a.segments.map id := List.map_congr_left (fun x _ => rfl)
      _ = a.segments := List.map_id _
  have hsorted : List.Sorted leT a.segments := ha.imp (fun h => Nat.le_of_lt h)
  show (⟨List.insertionSort leT ((seenMap a.segments (seenMap a.segments [])).map Prod.snd)⟩ : SegmentTimeline) = a
  rw [h1, h2, hvals, hsorted.insertionSort_eq]

/-- Timelines of the spec's S3 scenario, used as concrete witnesses. -/
def tlOldS3 : SegmentTimeline := ⟨[⟨0, 10, 0⟩, ⟨10, 10, 0⟩]⟩

/-- New timeline of the S3 scenario. -/
def tlNewS3 : SegmentTimeline := ⟨[⟨10, 12, 0⟩, ⟨22, 10, 0⟩]⟩

/-- C1: MergeTimelines returns the union of the two timelines' tuples keyed
by `t`, sorted strictly ascending by `t`, with the new timeline's tuple
winning wherever a `t` occurs in both; and merging a timeline with itself is
the identity — the latter amended to hold for timelines whose tuples are
strictly sorted by `t` (for an unsorted or duplicate-keyed timeline the
result is the sorted deduplicated form, not the input; see the
counterexample). -/
theorem mergeTimelines_correct (oldTl newTl a : SegmentTimeline)
    (ha : List.Pairwise ltT a.segments) :
    List.Pairwise ltT (mergeTimelines oldTl newTl).segments
    ∧ (∀ t, valueAt (mergeTimelines oldTl newTl).segments t
        = orO (valueAt newTl.segments t) (valueAt oldTl.segments t))
    ∧ mergeTimelines a a = a :=
  ⟨merge_sorted oldTl newTl, merge_valueAt oldTl newTl, merge_idem a ha⟩

/-- Witness for C1 at the spec's S3 inputs. -/
theorem mergeTimelines_correct_witness :
    List.Pairwise ltT tlOldS3.segments ∧ mergeTimelines tlOldS3 tlOldS3 = tlOldS3 :=
  ⟨by decide, (mergeTimelines_correct tlNewS3 tlNewS3 tlOldS3 (by decide)).2.2⟩

/-- Counterexample for C1 as stated: for the unsorted timeline
`[(t=1), (t=0)]`, `MergeTimelines(a, a)` returns the sorted form
`[(t=0), (t=1)]`, so `merge(a, a) = a` fails for this timeline. -/
theorem mergeTimelines_idem_counterexample :
    mergeTimelines ⟨[⟨1, 5, 0⟩, ⟨0, 5, 0⟩]⟩ ⟨[⟨1, 5, 0⟩, ⟨0, 5, 0⟩]⟩
      = ⟨[⟨0, 5, 0⟩, ⟨1, 5, 0⟩]⟩
    ∧ (⟨[⟨0, 5, 0⟩, ⟨1, 5, 0⟩]⟩ : SegmentTimeline) ≠ ⟨[⟨1, 5, 0⟩, ⟨0, 5, 0⟩]⟩ := by
  constructor
  · rfl
  · decide

/-- Effective cursor at the start of a tuple: a present non-zero `t`
attribute resets the timeline cursor (`if s.T > 0`). -/
def effCursor (cursor : Nat) (s : S) : Nat := if s.T > 0 then s.T else cursor

/-- One block of `n` contiguous segments of duration `d` starting at
`start`: return the first segment whose `start+d` (uint64 sum) exceeds the
playhead, mirroring the inner `for i := 0; i <= s.R; i++` loop of
`findSegmentTimeForPlayhead`. -/
def findBlock : Nat → Nat → Nat → Nat → Option (Nat × Nat)
  | _, _, 0, _ => none
  | start, d, n + 1, p => if p < uadd start d then some (start, d) else findBlock (uadd start d) d n p

/-- Cursor position after emitting a block of `n` segments of duration `d`. -/
def blockEnd : Nat → Nat → Nat → Nat
  | start, _, 0 => start
  | start, d, n + 1 => blockEnd (uadd start d) d n

/-- Main loop of `findSegmentTimeForPlayhead`: scan the tuples keeping the
tick cursor; the second component is the cursor when no segment matched. -/
def findFrom (p : Nat) : Nat → List S → Option (Nat × Nat) × Nat
  | cursor, [] => (none, cursor)
  | cursor, s :: rest =>
    match findBlock (effCursor cursor s) s.D (s.R + 1).toNat p with
    | some res => (some res, blockEnd (effCursor cursor s) s.D (s.R + 1).toNat)
    | none => findFrom p (blockEnd (effCursor cursor s) s.D (s.R + 1).toNat) rest

/-- `findSegmentTimeForPlayhead` from `internal/session/session.go`: return
the first segment (in timeline traversal order) whose end exceeds the
playhead; past the end of the timeline return the last segment when the
final cursor exceeds the last tuple's duration, else `(0, 0)`. -/
def findSegmentTimeForPlayhead (tl : SegmentTimeline) (p : Nat) : Nat × Nat :=
  match findFrom p 0 tl.segments with
  | (some res, _) => res
  | (none, cursor) =>
    match tl.segments.getLast? with
    | none => (0, 0)
    | some last => if cursor > last.D then (cursor - last.D, last.D) else (0, 0)

/-- C2 evidence: for the valid one-segment timeline `[(t=0, d=5)]` and
playhead `p = 5` — at the end of the timeline — the lookup returns `(0, 0)`
("no segment") although the timeline is non-empty, while for `p = 4` it
returns the segment `(0, 5)`. The code's own comment says that past the
known timeline the last known segment's start and duration are returned,
and the spec requires the same; the `cursor > lastDuration` guard (instead
of `≥`) misses exactly the case where the last segment starts at tick 0. -/
theorem findSegment_code_bug :
    findSegmentTimeForPlayhead ⟨[⟨0, 5, 0⟩]⟩ 5 = (0, 0)
    ∧ (⟨[⟨0, 5, 0⟩]⟩ : SegmentTimeline).segments ≠ []
    ∧ findSegmentTimeForPlayhead ⟨[⟨0, 5, 0⟩]⟩ 4 = (0, 5) := by
  refine ⟨?_, by decide, ?_⟩ <;> decide

/-- Outcome of a single HTTP GET attempt in the downloader, as observed by
`download` in the downloader worker (`dash` package): success with the
fully-read body, a transport error from `httpClient.Do`, a non-200 status
code, or a body-read error. -/
inductive AttemptOutcome where
  | success (data : List Nat)
  | netError (msg : String)
  | badStatus (code : Nat)
  | bodyError (msg : String)
deriving DecidableEq, Repr

/-- The per-attempt failure message built by `download` for each failing
branch (transport failure, non-200 status, body-read failure). -/
def failMsg (attempt : Nat) (segId segURL : String) : AttemptOutcome → String
  | .success _ => ""
  | .netError m =>
    "download attempt " ++ toString attempt ++ " for segment " ++ segId ++ " (" ++ segURL
      ++ ") failed: " ++ m
  | .badStatus c =>
    "download attempt " ++ toString attempt ++ " for segment " ++ segId ++ " (" ++ segURL
      ++ ") received non-200 status: " ++ toString c
  | .bodyError m =>
    "download attempt " ++ toString attempt ++ " for segment " ++ segId ++ " (" ++ segURL
      ++ ") failed while reading body: " ++ m

/-- Result of `download`: body bytes or error, plus the number of HTTP GET
attempts performed (the observable request count). -/
structure DownloadOutcome where
  data : Option (List Nat)
  error : Option String
  attempts : Nat
deriving DecidableEq, Repr

/-- Retry loop of `download` (maxRetries = 3 as set by `NewDownloader`):
`fuel` is the number of attempts remaining, `attempt` the 1-based attempt
counter, `lastErr` the last failure message. The network is an oracle
mapping the attempt number to its outcome. -/
def downloadAux (segId segURL : String) (outcomes : Nat → AttemptOutcome) :
    Nat → Nat → Option String → DownloadOutcome
  | _, 0, lastErr =>
    { data := none,
      error := some ("failed to download segment " ++ segId ++ " after 3 attempts: " ++ lastErr.getD ""),
      attempts := 0 }
  | attempt, fuel + 1, _ =>
    match outcomes attempt with
    | .success d => { data := some d, error := none, attempts := 1 }
    | o =>
      let res := downloadAux segId segURL outcomes (attempt + 1) fuel (some (failMsg attempt segId segURL o))
      { res with attempts := res.attempts + 1 }

/-- `download` from the downloader worker: on a request-construction error
return immediately without attempting; otherwise run up to 3 attempts. -/
def download (segId segURL : String) (outcomes : Nat → AttemptOutcome) (reqErr : Option String) :
    DownloadOutcome :=
  match reqErr with
  | some e =>
    { data := none,
      error := some ("failed to create request for segment " ++ segId ++ ": " ++ e),
      attempts := 0 }
  | none => downloadAux segId segURL outcomes 1 3 none

/-- Whether an attempt outcome is a success. -/
def isSuccess : AttemptOutcome → Bool
  | .success _ => true
  | _ => false

/-- C3: when the request can be constructed, the downloader performs at
most 3 attempts; exactly 1 if the first succeeds (emitting the body bytes
and no error); exactly 3 if all fail, emitting no data and the error
"failed to download segment <id> after 3 attempts: <last-error>"; and on
the first success at attempt `k` it emits that attempt's body with no
error after exactly `k` attempts. -/
theorem download_retries (segId segURL : String) (outcomes : Nat → AttemptOutcome) :
    (download segId segURL outcomes none).attempts ≤ 3
    ∧ (∀ d, outcomes 1 = .success d →
        download segId segURL outcomes none = ⟨some d, none, 1⟩)
    ∧ ((∀ i, 1 ≤ i → i ≤ 3 → isSuccess (outcomes i) = false) →
        download segId segURL outcomes none
          = ⟨none, some ("failed to download segment " ++ segId ++ " after 3 attempts: "
              ++ failMsg 3 segId segURL (outcomes 3)), 3⟩)
    ∧ (∀ k d, 1 ≤ k → k ≤ 3 → outcomes k = .success d →
        (∀ i, 1 ≤ i → i < k → isSuccess (outcomes i) = false) →
        download segId segURL outcomes none = ⟨some d, none, k⟩) := by
  have hstep : ∀ (att fuel : Nat) (le : Option String),
      isSuccess (outcomes att) = false →
      downloadAux segId segURL outcomes att (fuel + 1) le
        = { downloadAux segId segURL outcomes (att + 1) fuel
              (some (failMsg att segId segURL (outcomes att))) with
            attempts := (downloadAux segId segURL outcomes (att + 1) fuel
              (some (failMsg att segId segURL (outcomes att)))).attempts + 1 } := by
    intro att fuel le hno
    cases ho : outcomes att with
    | success d => rw [ho] at hno; simp [isSuccess] at hno
    | netError m => simp [downloadAux, ho]
    | badStatus c => simp [downloadAux, ho]
    | bodyError m => simp [downloadAux, ho]
  have hsucc : ∀ (att fuel : Nat) (le : Option String) d, outcomes att = .success d →
      downloadAux segId segURL outcomes att (fuel + 1) le = ⟨some d, none, 1⟩ := by
    intro att fuel le d ho
    simp [downloadAux, ho]
  have hbound : ∀ (fuel att : Nat) (le : Option String),
      (downloadAux segId segURL outcomes att fuel le).attempts ≤ fuel := by
    intro fuel
    induction fuel with
    | zero => intro att le; simp [downloadAux]
    | succ n ih =>
      intro att le
      cases ho : outcomes att with
      | success d => simp [downloadAux, ho]
      | netError m =>
        have hr := ih (att + 1) (some (failMsg att segId segURL (.netError m)))
        simp only [downloadAux, ho]
        omega
      | badStatus c =>
        have hr := ih (att + 1) (some (failMsg att segId segURL (.badStatus c)))
        simp only [downloadAux, ho]
        omega
      | bodyError m =>
        have hr := ih (att + 1) (some (failMsg att segId segURL (.bodyError m)))
        simp only [downloadAux, ho]
        omega
  refine ⟨hbound 3 1 none, ?_, ?_, ?_⟩
  · intro d h1
    exact hsucc 1 2 none d h1
  · intro hall
    show downloadAux segId segURL outcomes 1 3 none = _
    rw [hstep 1 2 none (hall 1 (by omega) (by omega)),
      hstep 2 1 _ (hall 2 (by omega) (by omega)),
      hstep 3 0 _ (hall 3 (by omega) (by omega))]
    simp [downloadAux]
  · intro k d hk1 hk3 hsk hprev
    show downloadAux segId segURL outcomes 1 3 none = _
    interval_cases k
    · exact hsucc 1 2 none d hsk
    · rw [hstep 1 2 none (by rw [hprev 1 (by omega) (by omega)]),
        hsucc 2 1 _ d hsk]
    · rw [hstep 1 2 none (by rw [hprev 1 (by omega) (by omega)]),
        hstep 2 1 _ (by rw [hprev 2 (by omega) (by omega)]),
        hsucc 3 0 _ d hsk]

/-- Attempt oracle of the spec's S4 scenario: HTTP 500 on attempts 1 and 2,
success with "final segment data" bytes on attempt 3. -/
def s4outcomes : Nat → AttemptOutcome := fun i =>
  if i < 3 then .badStatus 500 else .success [102, 105, 110, 97, 108]

/-- Witness for C3 at the S4 scenario: two failures then a success yields
the body after exactly 3 attempts with no error. -/
theorem download_retries_witness :
    ((1 : Nat) ≤ 3 ∧ (3 : Nat) ≤ 3 ∧ s4outcomes 3 = .success [102, 105, 110, 97, 108]
      ∧ (∀ i, 1 ≤ i → i < 3 → isSuccess (s4outcomes i) = false))
    ∧ download "seg42" "http://origin/seg42.m4s" s4outcomes none
        = ⟨some [102, 105, 110, 97, 108], none, 3⟩ :=
  ⟨⟨by decide, by decide, by decide, by decide⟩,
    (download_retries "seg42" "http://origin/seg42.m4s" s4outcomes).2.2.2 3
      [102, 105, 110, 97, 108] (by decide) (by decide) (by decide) (by decide)⟩

/-- One sweep of the segment cache (`runEviction` in
`internal/cache/segment_cache.go`): iterate over the cache entries, delete
every entry whose key is not in the liveness set (`isActive`, the
characteristic function of the set returned by the liveness provider), and
count the deletions. The cache map is modelled as an association list. -/
def runEviction (cache : List (String × List Nat)) (isActive : String → Bool) :
    List (String × List Nat) × Nat :=
  cache.foldl (fun acc p => if isActive p.1 then (acc.1 ++ [p], acc.2) else (acc.1, acc.2 + 1)) ([], 0)

theorem runEviction_foldl (isActive : String → Bool) :
    ∀ (cache : List (String × List Nat)) (pre : List (String × List Nat)) (n : Nat),
    cache.foldl (fun acc p => if isActive p.1 then (acc.1 ++ [p], acc.2) else (acc.1, acc.2 + 1)) (pre, n)
      = (pre ++ cache.filter (fun p => isActive p.1),
         n + (cache.filter (fun p => !isActive p.1)).length) := by
  intro cache
  induction cache with
  | nil => intro pre n; simp
  | cons p cache ih =>
    intro pre n
    by_cases h : isActive p.1
    · simp only [List.foldl_cons, if_pos h, ih, List.filter_cons, h]
      simp
    · have h' : isActive p.1 = false := by simpa using h
      simp only [List.foldl_cons, if_neg h, ih, List.filter_cons, h']
      simp [Nat.add_comm, Nat.add_assoc, Nat.add_left_comm]

theorem filter_len_sum {α : Type} (q : α → Bool) : ∀ (l : List α),
    (l.filter (fun x => !q x)).length + (l.filter q).length = l.length := by
  intro l
  induction l with
  | nil => simp
  | cons x l ih =>
    by_cases hx : q x
    · simp only [List.filter_cons, hx, Bool.not_true, Bool.false_eq_true, if_false, if_true,
        List.length_cons]
      omega
    · have hx' : q x = false := by simpa using hx
      simp only [List.filter_cons, hx', Bool.not_false, Bool.false_eq_true, if_false, if_true,
        List.length_cons]
      omega

/-- C4: after one eviction sweep, every surviving entry's key is in the
liveness set, every cache entry whose key is in the liveness set survives
with its bytes unchanged, nothing else is in the result, and the emitted
eviction count equals the number of deleted entries. -/
theorem runEviction_correct (cache : List (String × List Nat)) (isActive : String → Bool) :
    (∀ p ∈ (runEviction cache isActive).1, isActive p.1 = true)
    ∧ (∀ p ∈ cache, isActive p.1 = true → p ∈ (runEviction cache isActive).1)
    ∧ (∀ p ∈ (runEviction cache isActive).1, p ∈ cache)
    ∧ (runEviction cache isActive).2 + (runEviction cache isActive).1.length = cache.length := by
  have h := runEviction_foldl isActive cache [] 0
  have h1 : (runEviction cache isActive).1 = cache.filter (fun p => isActive p.1) := by
    rw [runEviction, h]; simp
  have h2 : (runEviction cache isActive).2 = (cache.filter (fun p => !isActive p.1)).length := by
    rw [runEviction, h]
    simp
  refine ⟨?_, ?_, ?_, ?_⟩
  · intro p hp
    rw [h1] at hp
    exact (List.mem_filter.mp hp).2
  · intro p hp ha
    rw [h1]
    exact List.mem_filter.mpr ⟨hp, ha⟩
  · intro p hp
    rw [h1] at hp
    exact (List.mem_filter.mp hp).1
  · rw [h1, h2]
    exact filter_len_sum (fun p => isActive p.1) cache

/-- Channel entry as the key service consumes it (`internal/config`
`Channel` after key processing): id plus the decoded raw key bytes (empty
for an unencrypted channel). -/
structure KChannel where
  id : String
  key : List Nat
deriving DecidableEq, Repr

/-- Channel configuration consumed by `key.NewService`. -/
structure KConfig where
  channels : List KChannel
deriving DecidableEq, Repr

/-- Loop of `key.NewService` over the configured channels, building the
channel→key map: channels with empty keys are skipped; a channel with a
non-empty key whose id is already mapped aborts with the duplicate error. -/
def newServiceAux : List (String × List Nat) → List KChannel → Except String (List (String × List Nat))
  | m, [] => .ok m
  | m, c :: rest =>
    if c.key.length > 0 then
      if m.any (fun p => p.1 == c.id) then
        .error ("duplicate channel ID found in config: " ++ c.id)
      else newServiceAux (m ++ [(c.id, c.key)]) rest
    else newServiceAux m rest

/-- `key.NewService` from `internal/key/service.go`. -/
def newService (cfg : KConfig) : Except String (List (String × List Nat)) :=
  newServiceAux [] cfg.channels

/-- Association-list lookup for string keys (Go map read). -/
def alistGet {α : Type} : List (String × α) → String → Option α
  | [], _ => none
  | p :: m, k => if p.1 = k then some p.2 else alistGet m k

/-- `GetKeyForChannel`: map lookup returning the key and a found flag
(modelled as an `Option`). -/
def getKeyForChannel (m : List (String × List Nat)) (channelId : String) : Option (List Nat) :=
  alistGet m channelId

/-- `handleKey` from `internal/api/router.go`: 404 with empty body when the
key service does not know the channel, else 200 with the raw key bytes. -/
def handleKey (m : List (String × List Nat)) (channelId : String) : Nat × List Nat :=
  match getKeyForChannel m channelId with
  | some k => (200, k)
  | none => (404, [])

/-- Number of channels in `l` with id `d` and a non-empty key. -/
def dupOcc (l : List KChannel) (d : String) : Nat :=
  (l.filter (fun c => c.id == d && !c.key.isEmpty)).length

theorem newServiceAux_error (l : List KChannel) :
    ∀ (m : List (String × List Nat)),
    ((∃ c ∈ l, c.key ≠ [] ∧ c.id ∈ m.map Prod.fst) ∨ (∃ d, 2 ≤ dupOcc l d)) →
    ∃ d, newServiceAux m l = .error ("duplicate channel ID found in config: " ++ d)
      ∧ ((d ∈ m.map Prod.fst ∧ 1 ≤ dupOcc l d) ∨ 2 ≤ dupOcc l d) := by
  induction l with
  | nil =>
    intro m h
    rcases h with ⟨c, hc, _⟩ | ⟨d, hd⟩
    · cases hc
    · simp [dupOcc] at hd
  | cons c rest ih =>
    intro m h
    by_cases hkey : c.key.length > 0
    · have hkey' : ¬c.key.isEmpty := by
        cases hc : c.key with
        | nil => simp [hc] at hkey
        | cons a l => simp [hc]
      by_cases hdup : m.any (fun p => p.1 == c.id)
      · refine ⟨c.id, ?_, ?_⟩
        · simp [newServiceAux, if_pos hkey, hdup]
        · left
          constructor
          · rcases List.any_eq_true.mp hdup with ⟨p, hp, hpe⟩
            have : p.1 = c.id := by simpa using hpe
            exact this ▸ List.mem_map_of_mem Prod.fst hp
          · have : c ∈ (c :: rest).filter (fun x => x.id == c.id && !x.key.isEmpty) := by
              rw [List.mem_filter]
              exact ⟨List.mem_cons_self _ _, by simp [hkey']⟩
            have hlen := List.length_pos.mpr (List.ne_nil_of_mem this)
            simpa [dupOcc] using hlen
      · have hrec : newServiceAux m (c :: rest) = newServiceAux (m ++ [(c.id, c.key)]) rest := by
          simp [newServiceAux, if_pos hkey, hdup]
        have hocc : ∀ d, dupOcc (c :: rest) d = (if c.id = d then 1 else 0) + dupOcc rest d := by
          intro d
          by_cases hcd : c.id = d
          · simp only [dupOcc, List.filter_cons, hcd]
            simp [hkey']
            omega
          · simp [dupOcc, List.filter_cons, hcd]
        have hpre : (∃ x ∈ rest, x.key ≠ [] ∧ x.id ∈ (m ++ [(c.id, c.key)]).map Prod.fst)
            ∨ (∃ d, 2 ≤ dupOcc rest d) := by
          rcases h with ⟨x, hx, hxk, hxm⟩ | ⟨d, hd⟩
          · rcases List.mem_cons.mp hx with rfl | hx'
            · exact absurd (List.any_eq_true.mpr (by
                rcases List.mem_map.mp hxm with ⟨p, hp, hpe⟩
                exact ⟨p, hp, by simp [hpe]⟩)) hdup
            · exact Or.inl ⟨x, hx', hxk, by simp [hxm]⟩
          · rw [hocc d] at hd
            by_cases hcd : c.id = d
            · rw [if_pos hcd] at hd
              have h1 : 0 < (rest.filter (fun x => x.id == d && !x.key.isEmpty)).length := by
                have := hd
                simp only [dupOcc] at this ⊢
                omega
              obtain ⟨x, hx⟩ := List.exists_mem_of_length_pos h1
              have hx' := List.mem_filter.mp hx
              have hb := hx'.2
              simp only [Bool.and_eq_true, beq_iff_eq, Bool.not_eq_true'] at hb
              have hxkey : x.key ≠ [] := by
                intro hk
                rw [hk] at hb
                simp at hb
              refine Or.inl ⟨x, hx'.1, hxkey, ?_⟩
              rw [List.map_append]
              apply List.mem_append_right
              simp only [List.map_cons, List.map_nil, List.mem_singleton]
              rw [hb.1, hcd]
            · rw [if_neg hcd] at hd
              exact Or.inr ⟨d, by omega⟩
        rcases ih (m ++ [(c.id, c.key)]) hpre with ⟨d, hd1, hd2⟩
        refine ⟨d, by rw [hrec]; exact hd1, ?_⟩
        rcases hd2 with ⟨hdm, hdo⟩ | hdo
        · simp only [List.map_append, List.mem_append] at hdm
          rcases hdm with hdm | hdm
          · exact Or.inl ⟨hdm, by rw [hocc d]; omega⟩
          · have hcd : c.id = d := (by simpa using hdm : d = c.id).symm
            right
            rw [hocc d, if_pos hcd]
            omega
        · right
          rw [hocc d]
          omega
    · have hrec : newServiceAux m (c :: rest) = newServiceAux m rest := by
        simp [newServiceAux, hkey]
      have hkey0 : c.key = [] := by
        cases hc : c.key with
        | nil => rfl
        | cons a l => rw [hc] at hkey; simp at hkey
      have hocc : ∀ d, dupOcc (c :: rest) d = dupOcc rest d := by
        intro d
        simp [dupOcc, List.filter_cons, hkey0]
      have hpre : (∃ x ∈ rest, x.key ≠ [] ∧ x.id ∈ m.map Prod.fst) ∨ (∃ d, 2 ≤ dupOcc rest d) := by
        rcases h with ⟨x, hx, hxk, hxm⟩ | ⟨d, hd⟩
        · rcases List.mem_cons.mp hx with rfl | hx'
          · exact absurd hkey0 hxk
          · exact Or.inl ⟨x, hx', hxk, hxm⟩
        · exact Or.inr ⟨d, by rw [hocc d] at hd; exact hd⟩
      rcases ih m hpre with ⟨d, hd1, hd2⟩
      refine ⟨d, by rw [hrec]; exact hd1, ?_⟩
      rcases hd2 with ⟨hdm, hdo⟩ | hdo
      · exact Or.inl ⟨hdm, by rw [hocc d]; omega⟩
      · exact Or.inr (by rw [hocc d]; omega)

/-- C8 amended: whenever two channels that both carry a non-empty key share
the same id, NewService fails with an error naming a duplicated id, and no
service map is produced. (As literally stated the claim is false: duplicate
ids are only detected among channels with non-empty keys, because
empty-keyed channels are skipped before the duplicate check; see the
counterexample.) -/
theorem newService_duplicate (cfg : KConfig) (h : ∃ d, 2 ≤ dupOcc cfg.channels d) :
    ∃ d, newService cfg = .error ("duplicate channel ID found in config: " ++ d)
      ∧ 2 ≤ dupOcc cfg.channels d := by
  obtain ⟨d, hd, hout⟩ := newServiceAux_error cfg.channels [] (Or.inr h)
  refine ⟨d, hd, ?_⟩
  rcases hout with ⟨hdm, _⟩ | hdo
  · simp at hdm
  · exact hdo

/-- Config with two non-empty-keyed channels sharing an id, witnessing C8. -/
def dupKeyedCfg : KConfig := ⟨[⟨"duplicate_id", [1, 2]⟩, ⟨"another", [3]⟩, ⟨"duplicate_id", [4]⟩]⟩

/-- Witness for C8 at a config where two keyed channels share an id. -/
theorem newService_duplicate_witness :
    (∃ d, 2 ≤ dupOcc dupKeyedCfg.channels d)
    ∧ (∃ d, newService dupKeyedCfg = .error ("duplicate channel ID found in config: " ++ d)
        ∧ 2 ≤ dupOcc dupKeyedCfg.channels d) :=
  ⟨⟨"duplicate_id", by decide⟩, newService_duplicate dupKeyedCfg ⟨"duplicate_id", by decide⟩⟩

/-- Counterexample for C8 as stated: a configuration where two channels
share the id "x" but both have empty keys starts up fine — NewService
returns an (empty) service map and no error. -/
theorem newService_dup_empty_counterexample :
    newService ⟨[⟨"x", []⟩, ⟨"x", []⟩]⟩ = .ok []
    ∧ (⟨[⟨"x", []⟩, ⟨"x", []⟩]⟩ : KConfig).channels.map KChannel.id = ["x", "x"] := by
  exact ⟨rfl, rfl⟩

theorem newServiceAux_ok_mem : ∀ (l : List KChannel) (m0 m : List (String × List Nat)),
    newServiceAux m0 l = .ok m →
    ∀ e ∈ m, e ∈ m0 ∨ ∃ c ∈ l, c.id = e.1 ∧ c.key = e.2 ∧ c.key ≠ [] := by
  intro l
  induction l with
  | nil =>
    intro m0 m h e he
    simp only [newServiceAux] at h
    injection h with h
    exact Or.inl (h ▸ he)
  | cons c rest ih =>
    intro m0 m h e he
    by_cases hkey : c.key.length > 0
    · by_cases hdup : m0.any (fun p => p.1 == c.id)
      · simp [newServiceAux, if_pos hkey, hdup] at h
      · have h' : newServiceAux (m0 ++ [(c.id, c.key)]) rest = .ok m := by
          simpa [newServiceAux, if_pos hkey, hdup] using h
        have hkne : c.key ≠ [] := by
          intro hk
          rw [hk] at hkey
          simp at hkey
        rcases ih (m0 ++ [(c.id, c.key)]) m h' e he with hh | ⟨x, hx, hx1, hx2, hx3⟩
        · rcases List.mem_append.mp hh with hh | hh
          · exact Or.inl hh
          · have he' : e = (c.id, c.key) := by simpa using hh
            exact Or.inr ⟨c, List.mem_cons_self _ _, by rw [he'], by rw [he'], hkne⟩
        · exact Or.inr ⟨x, List.mem_cons_of_mem _ hx, hx1, hx2, hx3⟩
    · have h' : newServiceAux m0 rest = .ok m := by
        simpa [newServiceAux, hkey] using h
      rcases ih m0 m h' e he with hh | ⟨x, hx, hx1, hx2, hx3⟩
      · exact Or.inl hh
      · exact Or.inr ⟨x, List.mem_cons_of_mem _ hx, hx1, hx2, hx3⟩

theorem alistGet_some_mem {α : Type} : ∀ (m : List (String × α)) (k : String) (v : α),
    alistGet m k = some v → (k, v) ∈ m := by
  intro m k v
  induction m with
  | nil => intro h; cases h
  | cons p m ih =>
    intro h
    simp only [alistGet] at h
    by_cases hp : p.1 = k
    · rw [if_pos hp] at h
      injection h with h
      have : (k, v) = p := by
        rw [← hp, ← h]
      rw [this]
      exact List.mem_cons_self _ _
    · rw [if_neg hp] at h
      exact List.mem_cons_of_mem _ (ih h)

/-- C9 amended: a channel whose processed key is empty and whose id is not
also used by a channel with a non-empty key is absent from the key map, so
GetKeyForChannel reports not-found and the key endpoint answers 404 exactly
as for a channel absent from the configuration; and the key map only ever
contains non-empty keys. (As literally stated the claim fails when a
duplicate id pairs an empty-keyed channel with a keyed one — a config that
NewService accepts; see the counterexample.) -/
theorem keyService_empty_key (cfg : KConfig) (m : List (String × List Nat))
    (hm : newService cfg = .ok m) (chId : String)
    (hempty : ∀ c ∈ cfg.channels, c.id = chId → c.key = []) :
    getKeyForChannel m chId = none
    ∧ handleKey m chId = (404, [])
    ∧ (∀ idA : String, (∀ c ∈ cfg.channels, c.id ≠ idA) → handleKey m idA = (404, []))
    ∧ (∀ e ∈ m, e.2 ≠ []) := by
  have hmem := newServiceAux_ok_mem cfg.channels [] m hm
  have hmem' : ∀ e ∈ m, ∃ c ∈ cfg.channels, c.id = e.1 ∧ c.key = e.2 ∧ c.key ≠ [] := by
    intro e he
    rcases hmem e he with hh | hh
    · cases hh
    · exact hh
  have hnone : getKeyForChannel m chId = none := by
    cases hg : getKeyForChannel m chId with
    | none => rfl
    | some v =>
      obtain ⟨c, hc, hcid, hckey, hkne⟩ := hmem' (chId, v) (alistGet_some_mem m chId v hg)
      exact absurd (hempty c hc hcid) hkne
  refine ⟨hnone, by simp [handleKey, hnone], ?_, ?_⟩
  · intro idA habsent
    cases hg : getKeyForChannel m idA with
    | none => simp [handleKey, hg]
    | some v =>
      obtain ⟨c, hc, hcid, _, _⟩ := hmem' (idA, v) (alistGet_some_mem m idA v hg)
      exact absurd hcid (habsent c hc)
  · intro e he
    obtain ⟨c, hc, _, hckey, hkne⟩ := hmem' e he
    rw [← hckey]
    exact hkne

/-- Config with one keyed and one unencrypted channel, witnessing C9. -/
def unencCfg : KConfig := ⟨[⟨"enc", [7]⟩, ⟨"plain", []⟩]⟩

/-- Witness for C9: the unencrypted channel "plain" answers 404. -/
theorem keyService_empty_key_witness :
    (newService unencCfg = .ok [("enc", [7])]
      ∧ (∀ c ∈ unencCfg.channels, c.id = "plain" → c.key = []))
    ∧ handleKey [("enc", [7])] "plain" = (404, []) :=
  ⟨⟨rfl, by decide⟩,
    (keyService_empty_key unencCfg [("enc", [7])] rfl "plain" (by decide)).2.1⟩

/-- Counterexample for C9 as stated: in the accepted configuration
`[("x", key [1]), ("x", no key)]` the second channel has an empty processed
key, yet GetKeyForChannel("x") finds the first channel's key and the key
endpoint answers 200, not 404. -/
theorem keyService_empty_key_counterexample :
    (∃ c ∈ (⟨[⟨"x", [1]⟩, ⟨"x", []⟩]⟩ : KConfig).channels, c.key = [] ∧ c.id = "x")
    ∧ newService ⟨[⟨"x", [1]⟩, ⟨"x", []⟩]⟩ = .ok [("x", [1])]
    ∧ getKeyForChannel [("x", [1])] "x" = some [1]
    ∧ handleKey [("x", [1])] "x" = (200, [1]) := by
  refine ⟨⟨⟨"x", []⟩, by decide, rfl, rfl⟩, rfl, rfl, rfl⟩

/-- ASCII lower-casing of one character (the duration strings handled here
are ASCII, so Unicode lowering coincides with this). -/
def lowerChar (c : Char) : Char :=
  if 'A' ≤ c ∧ c ≤ 'Z' then Char.ofNat (c.toNat + 32) else c

/-- ASCII `strings.ToLower`. -/
def asciiLower (s : String) : String := String.mk (s.toList.map lowerChar)

/-- Go `strings.TrimPrefix`: drop `pre` when `s` starts with it. -/
def trimLeading (pre s : String) : String :=
  if pre.toList.isPrefixOf s.toList then String.mk (s.toList.drop pre.toList.length) else s

/-- Consume leading decimal digits, returning value, digit count, rest. -/
def takeDigits : List Char → Nat → Nat → Nat × Nat × List Char
  | [], v, n => (v, n, [])
  | c :: rest, v, n =>
    if '0' ≤ c ∧ c ≤ '9' then takeDigits rest (v * 10 + (c.toNat - 48)) (n + 1)
    else (v, n, c :: rest)

/-- Consume a unit name (letters up to the next digit or dot). -/
def takeUnit : List Char → List Char × List Char
  | [] => ([], [])
  | c :: rest =>
    if ('0' ≤ c ∧ c ≤ '9') ∨ c = '.' then ([], c :: rest)
    else
      let r := takeUnit rest
      (c :: r.1, r.2)

/-- Nanoseconds per unit, as in Go `time.ParseDuration`'s unit map
(ASCII units only; the µs aliases are not needed here). -/
def unitNanos (u : List Char) : Option Nat :=
  if u = ['n', 's'] then some 1
  else if u = ['u', 's'] then some 1000
  else if u = ['m', 's'] then some 1000000
  else if u = ['s'] then some 1000000000
  else if u = ['m'] then some 60000000000
  else if u = ['h'] then some 3600000000000
  else none

/-- Modelled after Go `time.ParseDuration` for non-negative ASCII inputs:
repeatedly read `digits[.digits]unit` and accumulate nanoseconds; the
fractional part is `f * unit / 10 ^ digits`, which agrees with Go's
float computation whenever the unit is divisible by the fraction scale
(all inputs exercised here). `fuel` bounds the loop. -/
def parseDurLoop : Nat → List Char → Nat → Option Nat
  | 0, _, _ => none
  | fuel + 1, cs, acc =>
    match cs with
    | [] => some acc
    | _ :: _ =>
      let d1 := takeDigits cs 0 0
      let fr :=
        match d1.2.2 with
        | '.' :: r =>
          let t := takeDigits r 0 0
          (t.1, t.2.1, t.2.2)
        | _ => (0, 0, d1.2.2)
      if d1.2.1 = 0 ∧ fr.2.1 = 0 then none
      else
        let ur := takeUnit fr.2.2
        match unitNanos ur.1 with
        | none => none
        | some unit => parseDurLoop fuel ur.2 (acc + d1.1 * unit + fr.1 * unit / 10 ^ fr.2.1)

/-- Go `time.ParseDuration` (nanoseconds result), restricted to the
non-negative inputs this program feeds it. -/
def goParseDuration (s : String) : Option Nat :=
  if s = "0" then some 0
  else
    match s.toList with
    | [] => none
    | cs => parseDurLoop (cs.length + 1) cs 0

/-- The TARGETDURATION computation of `GenerateMediaPlaylist`:
`int(targetDuration.Seconds())` of
`time.ParseDuration(strings.ToLower(strings.TrimPrefix(maxSegDur, "PT")))`,
with the parse error ignored (yielding duration 0). Truncating division
models the `int(...)` float truncation, exact for the values in range. -/
def targetDurationSecs (maxSegDur : String) : Nat :=
  ((goParseDuration (asciiLower (trimLeading "PT" maxSegDur))).getD 0) / 1000000000

/-- Go `path.Base`. -/
def pathBase (s : String) : String :=
  if s = "" then "."
  else
    let r := s.toList.reverse.dropWhile (fun c => c = '/')
    if r = [] then "/"
    else String.mk ((r.takeWhile (fun c => c ≠ '/')).reverse)

/-- Go `path.Ext`: the suffix starting at the final dot in the final
slash-separated element, or empty when there is none. -/
def pathExt (s : String) : String :=
  let lastElem := s.toList.reverse.takeWhile (fun c => c ≠ '/')
  let e := lastElem.takeWhile (fun c => c ≠ '.')
  if e.length = lastElem.length then "" else String.mk ('.' :: e.reverse)

/-- Go `strings.TrimSuffix`. -/
def trimSuf (suf s : String) : String :=
  if suf.toList.isSuffixOf s.toList then String.mk (s.toList.take (s.toList.length - suf.toList.length))
  else s

/-- Replace the first occurrence of `pat` in the character list. -/
def replaceFirstAux : List Char → List Char → List Char → List Char
  | [], _, _ => []
  | c :: rest, pat, repl =>
    if pat.isPrefixOf (c :: rest) then repl ++ (c :: rest).drop pat.length
    else c :: replaceFirstAux rest pat repl

/-- Go `strings.Replace(s, pat, repl, 1)`. -/
def strReplaceFirst (s pat repl : String) : String :=
  String.mk (replaceFirstAux s.toList pat.toList repl.toList)

/-- Three-digit zero-padding for the fractional part. -/
def pad3 (n : Nat) : String :=
  if n < 10 then "00" ++ toString n else if n < 100 then "0" ++ toString n else toString n

/-- Go `fmt.Sprintf("%.3f", num/den)` on a non-negative rational, rounding
half to even; agrees with the float formatting whenever the quotient is
exactly representable (the concrete values exercised here are). A zero
denominator (Go would produce a float infinity after an out-of-range
index panic was avoided) is mapped to a marker string. -/
def fmtFixed3 (num den : Nat) : String :=
  if den = 0 then "NaN"
  else
    let scaled := num * 1000
    let q0 := scaled / den
    let r := scaled % den
    let q := if 2 * r > den then q0 + 1 else if 2 * r < den then q0 else if q0 % 2 = 0 then q0 else q0 + 1
    toString (q / 1000) ++ "." ++ pad3 (q % 1000)

/-- DASH `SegmentTemplate` (`internal/dash` model). -/
structure SegmentTemplate where
  timescale : Int
  initialization : String
  media : String
  timeline : SegmentTimeline
deriving DecidableEq, Repr

/-- DASH `Representation` (`internal/dash` model). -/
structure Representation where
  id : String
  bandwidth : Int
  codecs : String
  width : Int
  height : Int
  frameRate : String
  presentationTimeOffset : Nat
deriving DecidableEq, Repr

/-- DASH `AdaptationSet` (`internal/dash` model). -/
structure AdaptationSet where
  id : String
  contentType : String
  lang : String
  mimeType : String
  representations : List Representation
  segmentTemplate : SegmentTemplate
deriving DecidableEq, Repr

/-- DASH `Period` (`internal/dash` model). -/
structure Period where
  id : String
  start : String
  baseURL : String
  sets : List AdaptationSet
deriving DecidableEq, Repr

/-- DASH `MPD` (`internal/dash` model; only the attributes the embedded
operations read). -/
structure MPD where
  mpdType : String
  minimumUpdatePeriod : String
  maxSegmentDuration : String
  periods : List Period
deriving DecidableEq, Repr

/-- `models.Segment`: a downloadable media chunk. -/
structure Segment where
  url : String
  id : String
  time : Nat
  duration : Nat
  repId : String
  isInit : Bool
deriving DecidableEq, Repr

/-- The representation search of `GenerateMediaPlaylist` over the sets of
one period: first set with matching content type containing the
representation; on a hit also substitute `$RepresentationID$` into the
initialization template. -/
def findRepInSets : List AdaptationSet → String → String → Option (Representation × String)
  | [], _, _ => none
  | as :: rest, mt, rid =>
    if as.contentType = mt then
      match as.representations.find? (fun r => r.id == rid) with
      | some r => some (r, strReplaceFirst as.segmentTemplate.initialization "$RepresentationID$" r.id)
      | none => findRepInSets rest mt rid
    else findRepInSets rest mt rid

/-- The representation search of `GenerateMediaPlaylist` over all periods. -/
def findRepInit : List Period → String → String → Option (Representation × String)
  | [], _, _ => none
  | p :: rest, mt, rid =>
    match findRepInSets p.sets mt rid with
    | some r => some r
    | none => findRepInit rest mt rid

/-- Timescale used for the EXTINF conversion: the first period's first
set's timescale (`mpd.Periods[0].Sets[0].SegmentTemplate.Timescale`, the
code's "simplified assumption"). The Go code panics when no period/set
exists and produces float nonsense for a non-positive timescale; these
degenerate cases are mapped to 0 (the `fmtFixed3` marker case). -/
def firstTsNat (mpd : MPD) : Nat :=
  match mpd.periods with
  | [] => 0
  | p :: _ =>
    match p.sets with
    | [] => 0
    | a :: _ => if 0 ≤ a.segmentTemplate.timescale then a.segmentTemplate.timescale.toNat else 0

/-- The two lines emitted per segment. -/
def extinfLine (seg : Segment) (ts : Nat) : String :=
  "#EXTINF:" ++ fmtFixed3 seg.duration ts ++ ",\n" ++ seg.id ++ ".m4s\n"

/-- `GenerateMediaPlaylist` from the `hls` package. -/
def generateMediaPlaylist (mpd : MPD) (channelId mediaType repId : String) (mediaSequence : Nat)
    (availableSegments : List Segment) : Except String String :=
  match findRepInit mpd.periods mediaType repId with
  | none => .error ("representation '" ++ repId ++ "' of type '" ++ mediaType ++ "' not found")
  | some (_, initURL) =>
    let base := pathBase initURL
    let hlsInit := trimSuf (pathExt base) base ++ ".m4s"
    .ok ("#EXTM3U\n#EXT-X-VERSION:7\n#EXT-X-TARGETDURATION:"
      ++ toString (targetDurationSecs mpd.maxSegmentDuration)
      ++ "\n#EXT-X-MEDIA-SEQUENCE:" ++ toString mediaSequence
      ++ "\n#EXT-X-KEY:METHOD=SAMPLE-AES,URI=\"/key/" ++ channelId
      ++ "\"\n#EXT-X-MAP:URI=\"" ++ hlsInit
      ++ "\"\n" ++ String.join (availableSegments.map (fun seg => extinfLine seg (firstTsNat mpd))))

/-- Split a character list at newlines (Go `strings.Split(s, "\n")`). -/
def splitNl : List Char → List (List Char)
  | [] => [[]]
  | c :: rest =>
    if c = '\n' then [] :: splitNl rest
    else
      match splitNl rest with
      | l :: ls => (c :: l) :: ls
      | [] => [[c]]

/-- Lines of a string, split at newlines. -/
def linesOf (s : String) : List String := (splitNl s.toList).map String.mk

/-- MPD of the spec's S2 scenario. -/
def s2mpd : MPD :=
  ⟨"", "", "PT6S",
    [⟨"", "", "",
      [⟨"", "video", "", "",
        [⟨"v1", 5000000, "avc1.640028", 0, 0, "", 0⟩],
        ⟨90000, "init-$RepresentationID$.m4s", "", ⟨[]⟩⟩⟩]⟩]⟩

/-- Segments of the spec's S2 scenario. -/
def s2segs : List Segment :=
  [⟨"", "12345", 0, 540000, "", false⟩, ⟨"", "12351", 0, 540000, "", false⟩]

/-- C7 amended: whenever the requested representation exists,
GenerateMediaPlaylist succeeds and produces, in order, #EXTM3U,
#EXT-X-VERSION:7, #EXT-X-TARGETDURATION:<truncated integer seconds of
maxSegmentDuration — not the ceiling; see the counterexample>,
#EXT-X-MEDIA-SEQUENCE:<sequence>, the SAMPLE-AES #EXT-X-KEY line for the
channel, the #EXT-X-MAP line whose URI is the basename of the substituted
initialization template with its extension rewritten to .m4s, then per
segment the #EXTINF/<t>.m4s pair; on the S2 inputs the first 10 lines are
exactly those listed in the spec. -/
theorem generateMediaPlaylist_format (mpd : MPD) (channelId mediaType repId : String)
    (mseq : Nat) (segs : List Segment) (rep : Representation) (initURL : String)
    (hfind : findRepInit mpd.periods mediaType repId = some (rep, initURL)) :
    generateMediaPlaylist mpd channelId mediaType repId mseq segs
      = .ok ("#EXTM3U\n#EXT-X-VERSION:7\n#EXT-X-TARGETDURATION:"
          ++ toString (targetDurationSecs mpd.maxSegmentDuration)
          ++ "\n#EXT-X-MEDIA-SEQUENCE:" ++ toString mseq
          ++ "\n#EXT-X-KEY:METHOD=SAMPLE-AES,URI=\"/key/" ++ channelId
          ++ "\"\n#EXT-X-MAP:URI=\""
          ++ (trimSuf (pathExt (pathBase initURL)) (pathBase initURL) ++ ".m4s")
          ++ "\"\n"
          ++ String.join (segs.map (fun seg =>
              "#EXTINF:" ++ fmtFixed3 seg.duration (firstTsNat mpd) ++ ",\n" ++ seg.id ++ ".m4s\n")))
    ∧ (generateMediaPlaylist s2mpd "test_channel" "video" "v1" 101 s2segs).toOption.map
          (fun pl => (linesOf pl).take 10)
        = some ["#EXTM3U", "#EXT-X-VERSION:7", "#EXT-X-TARGETDURATION:6", "#EXT-X-MEDIA-SEQUENCE:101",
            "#EXT-X-KEY:METHOD=SAMPLE-AES,URI=\"/key/test_channel\"", "#EXT-X-MAP:URI=\"init-v1.m4s\"",
            "#EXTINF:6.000,", "12345.m4s", "#EXTINF:6.000,", "12351.m4s"] := by
  constructor
  · simp [generateMediaPlaylist, hfind, extinfLine]
  · decide

/-- Witness for C7 at the S2 inputs. -/
theorem generateMediaPlaylist_format_witness :
    findRepInit s2mpd.periods "video" "v1"
        = some (⟨"v1", 5000000, "avc1.640028", 0, 0, "", 0⟩, "init-v1.m4s")
    ∧ (generateMediaPlaylist s2mpd "test_channel" "video" "v1" 101 s2segs).toOption.map
          (fun pl => (linesOf pl).take 10)
        = some ["#EXTM3U", "#EXT-X-VERSION:7", "#EXT-X-TARGETDURATION:6", "#EXT-X-MEDIA-SEQUENCE:101",
            "#EXT-X-KEY:METHOD=SAMPLE-AES,URI=\"/key/test_channel\"", "#EXT-X-MAP:URI=\"init-v1.m4s\"",
            "#EXTINF:6.000,", "12345.m4s", "#EXTINF:6.000,", "12351.m4s"] :=
  ⟨by decide,
    (generateMediaPlaylist_format s2mpd "test_channel" "video" "v1" 101 s2segs
      ⟨"v1", 5000000, "avc1.640028", 0, 0, "", 0⟩ "init-v1.m4s" (by decide)).2⟩

/-- MPD like S2 but with a fractional maxSegmentDuration of 6.5 seconds. -/
def mpd65 : MPD :=
  ⟨"", "", "PT6.5S",
    [⟨"", "", "",
      [⟨"", "video", "", "",
        [⟨"v1", 5000000, "avc1.640028", 0, 0, "", 0⟩],
        ⟨90000, "init-$RepresentationID$.m4s", "", ⟨[]⟩⟩⟩]⟩]⟩

/-- Counterexample for C7 as stated: with maxSegmentDuration "PT6.5S" the
emitted line is #EXT-X-TARGETDURATION:6 (the truncation of 6.5), while the
claimed ceiling of 6.5 seconds is 7. -/
theorem targetDuration_not_ceil_counterexample :
    (generateMediaPlaylist mpd65 "test_channel" "video" "v1" 101 s2segs).toOption.map
        (fun pl => (linesOf pl).getD 2 "")
      = some "#EXT-X-TARGETDURATION:6"
    ∧ (6500000000 + 1000000000 - 1) / 1000000000 = 7 := by
  constructor
  · decide
  · norm_num

/-- Association-list write `m[k] = v` for string keys (Go map write). -/
def alistSet {α : Type} : List (String × α) → String → α → List (String × α)
  | [], k, v => [(k, v)]
  | p :: m, k, v => if p.1 = k then (k, v) :: m else p :: alistSet m k v

/-- Substring scan: does `pat` occur contiguously in the list? -/
def containsSub (pat : List Char) : List Char → Bool
  | [] => pat.isEmpty
  | c :: rest => pat.isPrefixOf (c :: rest) || containsSub pat rest

/-- Go `strings.Contains`. -/
def strContains (s pat : String) : Bool := containsSub pat.toList s.toList

/-- The highest-bandwidth loop of `selectRepresentations` for video sets:
skip TrickMode representations, keep the first strict bandwidth maximum. -/
def bestVideoRep : List Representation → Option Representation → Int → Option Representation
  | [], best, _ => best
  | r :: rest, best, maxBw =>
    if strContains r.id "TrickMode" then bestVideoRep rest best maxBw
    else if r.bandwidth > maxBw then bestVideoRep rest (some r) r.bandwidth
    else bestVideoRep rest best maxBw

/-- `selectRepresentations` from `internal/session/session.go`: one best
video representation; every audio/text representation; nothing else. -/
def selectRepresentations (as : AdaptationSet) : List Representation :=
  if as.contentType = "video" then
    match bestVideoRep as.representations none 0 with
    | some r => [r]
    | none => []
  else if as.contentType = "audio" ∨ as.contentType = "text" then as.representations
  else []

/-- Number of segments in the live playlist window
(`playlistLiveSegments` constant). -/
def playlistLiveSegments : Nat := 5

/-- Mutable state of a `StreamSession` guarded by its lock: the MPD
snapshot, per-representation sliding windows, cached playlists, media
sequence counters, and the playhead. -/
structure SessionState where
  channelId : String
  manifestURL : String
  baseURL : String
  mpd : MPD
  availableSegments : List (String × List Segment)
  playlistCache : List (String × String)
  mediaSequence : List (String × Nat)
  sessionTimescale : Nat
  currentTargetTime : Nat
deriving DecidableEq, Repr

/-- Sliding window of a representation (Go map read with nil default). -/
def availOf (st : SessionState) (rep : String) : List Segment :=
  (alistGet st.availableSegments rep).getD []

/-- Media-sequence counter of a representation (Go map read, default 0). -/
def mseqOf (st : SessionState) (rep : String) : Nat :=
  (alistGet st.mediaSequence rep).getD 0

/-- A `DownloadResult` as consumed by the result loop. -/
structure DownloadResultM where
  segment : Segment
  data : List Nat
  error : Option String
deriving DecidableEq, Repr

/-- One iteration of `resultLoop` on a received result (the cache write is
not part of the session state): errors are dropped; init segments stop
after the cache write; otherwise a copy of the segment re-keyed by its
decimal start time is appended to the representation's window unless a
segment with the same id is already present, and when the window exceeds
`playlistLiveSegments + 2` the oldest entry is dropped and the media
sequence incremented. -/
def resultStep (st : SessionState) (r : DownloadResultM) : SessionState :=
  match r.error with
  | some _ => st
  | none =>
    if r.segment.isInit then st
    else
      let segCopy := { r.segment with id := toString r.segment.time }
      let avail := availOf st r.segment.repId
      if avail.any (fun s => s.id == segCopy.id) then st
      else
        let avail2 := avail ++ [segCopy]
        if avail2.length > playlistLiveSegments + 2 then
          { st with
              availableSegments := alistSet st.availableSegments r.segment.repId (avail2.drop 1),
              mediaSequence := alistSet st.mediaSequence r.segment.repId (mseqOf st r.segment.repId + 1) }
        else
          { st with availableSegments := alistSet st.availableSegments r.segment.repId avail2 }

/-- Replace the timeline of the first set with the given id by the merge of
its old timeline with the new one (`refreshMPD` inner set search). -/
def mergeIntoSets : List AdaptationSet → String → SegmentTimeline → List AdaptationSet
  | [], _, _ => []
  | a :: rest, asId, ntl =>
    if a.id = asId then
      { a with segmentTemplate :=
          { a.segmentTemplate with timeline := mergeTimelines a.segmentTemplate.timeline ntl } } :: rest
    else a :: mergeIntoSets rest asId ntl

/-- Apply one new adaptation set to the stored periods: the first period
with the matching id that contains a set with the matching id gets its
set's timeline merged (`refreshMPD` period search; a period with the right
id but no matching set is skipped and the search continues). -/
def mergeIntoPeriods : List Period → String → String → SegmentTimeline → List Period
  | [], _, _, _ => []
  | p :: rest, pid, asId, ntl =>
    if p.id = pid ∧ p.sets.any (fun a => a.id == asId) then
      { p with sets := mergeIntoSets p.sets asId ntl } :: rest
    else p :: mergeIntoPeriods rest pid asId ntl

/-- `refreshMPD` body after a successful fetch: merge every new adaptation
set's timeline into the matching stored set, then update
minimumUpdatePeriod and the effective base URL. -/
def refreshMPD (st : SessionState) (newMpd : MPD) (newBaseURL : String) : SessionState :=
  let periods2 := newMpd.periods.foldl (fun acc np =>
      np.sets.foldl (fun acc2 nas => mergeIntoPeriods acc2 np.id nas.id nas.segmentTemplate.timeline) acc)
    st.mpd.periods
  { st with
      mpd := { st.mpd with periods := periods2, minimumUpdatePeriod := newMpd.minimumUpdatePeriod },
      baseURL := newBaseURL }

/-- Per-representation step of `updatePlaylists`: skip empty windows, trim
a local copy to the last `playlistLiveSegments` entries, regenerate the
playlist, and store it in the playlist cache (errors are skipped). -/
def updateRepPlaylist (st : SessionState) (as : AdaptationSet) (rep : Representation) : SessionState :=
  let segs := availOf st rep.id
  if segs.isEmpty then st
  else
    let segs2 := if segs.length > playlistLiveSegments then segs.drop (segs.length - playlistLiveSegments) else segs
    match generateMediaPlaylist st.mpd st.channelId as.contentType rep.id (mseqOf st rep.id) segs2 with
    | .error _ => st
    | .ok pl => { st with playlistCache := alistSet st.playlistCache rep.id pl }

/-- `updatePlaylists` from `internal/session/session.go`: regenerate the
cached playlist of every representation of every set of every period. -/
def updatePlaylists (st : SessionState) : SessionState :=
  st.mpd.periods.foldl (fun s1 p =>
    p.sets.foldl (fun s2 as =>
      as.representations.foldl (fun s3 rep => updateRepPlaylist s3 as rep) s2) s1) st

/-- The `maxTime` cursor scan plus live-delay subtraction of
`initializeState`: expand the timeline cursor (uint64 arithmetic,
`uint64(seg.R+1) * seg.D` per tuple), then back off four last-durations,
clamped at zero. -/
def initPlayhead (timeline : List S) : Nat :=
  let maxTime := timeline.foldl (fun cursor s =>
    uadd (if s.T > 0 then s.T else cursor) (umul (uofInt (s.R + 1)) s.D)) 0
  match timeline.getLast? with
  | none => 0
  | some last =>
    let liveDelay := umul last.D 4
    if maxTime > liveDelay then maxTime - liveDelay else 0

/-- Whether a set contains a TrickMode representation (the heuristic of
`initializeState`). -/
def isTrickModeAS (as : AdaptationSet) : Bool :=
  as.representations.any (fun r => strContains r.id "TrickMode")

/-- The primary-video-set search of `initializeState` over the first
period's sets. -/
def findVideoAS (sets : List AdaptationSet) : Option AdaptationSet :=
  sets.find? (fun as => as.contentType == "video" && !isTrickModeAS as)

/-- `initializeState`: pick the anchoring set (first non-TrickMode video
set of the first period, else the first set), take its timescale as the
session timescale, and place the playhead four last-segment durations
behind the live edge. -/
def initializeState (st : SessionState) : Except String SessionState :=
  let videoAS :=
    match st.mpd.periods with
    | [] => none
    | p :: _ =>
      match findVideoAS p.sets with
      | some a => some a
      | none => p.sets.head?
  match videoAS with
  | none => .error "no adaptation sets found in MPD"
  | some vas =>
    let ts := uofInt vas.segmentTemplate.timescale
    if ts = 0 then .error "primary adaptation set has a timescale of 0"
    else if vas.segmentTemplate.timeline.segments.isEmpty then
      .error "primary adaptation set has no timeline information"
    else
      .ok { st with
        sessionTimescale := ts,
        currentTargetTime := initPlayhead vas.segmentTemplate.timeline.segments }

/-- Per-set body of `downloadNextSegments`: select representations, skip
sets with a zero timescale or no selection, convert the playhead via the
oracle (`repTarget` abstracts the period-start parse and the float
conversion of the playhead into the set's ticks; `none` models a parse
error, which skips the set), look up the segment at the playhead, and
queue a download for every selected representation whose cache key is not
already present (`buildURL` abstracts URL resolution; an error skips the
representation). Returns the found (start, duration) and the queued
segments. -/
def setSchedule (channelId : String) (cacheHas : String → Bool)
    (buildURL : Period → AdaptationSet → Representation → Nat → Option String)
    (repTarget : Period → AdaptationSet → Option Nat)
    (period : Period) (as : AdaptationSet) : Option (Nat × Nat) × List Segment :=
  let reps := selectRepresentations as
  if uofInt as.segmentTemplate.timescale = 0 then (none, [])
  else if reps.isEmpty then (none, [])
  else
    match repTarget period as with
    | none => (none, [])
    | some targetTimeForRep =>
      let td := findSegmentTimeForPlayhead as.segmentTemplate.timeline targetTimeForRep
      if td.2 = 0 then (none, [])
      else
        (some td,
          reps.filterMap (fun rep =>
            let cacheKey := channelId ++ "/" ++ rep.id ++ "/" ++ toString td.1
            if cacheHas cacheKey then none
            else
              match buildURL period as rep td.1 with
              | none => none
              | some url => some ⟨url, cacheKey, td.1, td.2, rep.id, false⟩))

/-- The fold of `downloadNextSegments` over all periods and sets,
accumulating the last scheduled video segment duration and the queued
downloads. -/
def scheduleFold (st : SessionState)
    (repTarget : Nat → Period → AdaptationSet → Option Nat)
    (buildURL : Period → AdaptationSet → Representation → Nat → Option String)
    (cacheHas : String → Bool) : Nat × List Segment :=
  st.mpd.periods.foldl (fun acc period =>
    period.sets.foldl (fun acc2 as =>
      let r := setSchedule st.channelId cacheHas buildURL (repTarget st.currentTargetTime) period as
      (match r.1 with
       | some td => if as.contentType = "video" then td.2 else acc2.1
       | none => acc2.1,
       acc2.2 ++ r.2)) acc) (0, [])

/-- `downloadNextSegments`: with a zero session timescale nothing happens;
otherwise schedule per set, and when a video segment was scheduled advance
the playhead by its duration (uint64 addition). -/
def downloadNextSegments (st : SessionState)
    (repTarget : Nat → Period → AdaptationSet → Option Nat)
    (buildURL : Period → AdaptationSet → Representation → Nat → Option String)
    (cacheHas : String → Bool) : SessionState × List Segment :=
  if st.sessionTimescale = 0 then (st, [])
  else
    let r := scheduleFold st repTarget buildURL cacheHas
    if r.1 > 0 then ({ st with currentTargetTime := uadd st.currentTargetTime r.1 }, r.2)
    else (st, r.2)

theorem alistGet_set_self {α : Type} : ∀ (m : List (String × α)) (k : String) (v : α),
    alistGet (alistSet m k v) k = some v := by
  intro m k v
  induction m with
  | nil => simp [alistSet, alistGet]
  | cons p m ih =>
    by_cases h : p.1 = k
    · simp [alistSet, h, alistGet]
    · simp [alistSet, h, alistGet, ih]

theorem alistGet_set_ne {α : Type} : ∀ (m : List (String × α)) (k k' : String) (v : α),
    k' ≠ k → alistGet (alistSet m k v) k' = alistGet m k' := by
  intro m k k' v hne
  induction m with
  | nil =>
    have h1 : ¬k = k' := fun hh => hne hh.symm
    simp [alistSet, alistGet, h1]
  | cons p m ih =>
    by_cases h : p.1 = k
    · have h1 : ¬k = k' := fun hh => hne hh.symm
      have h2 : ¬p.1 = k' := by rw [h]; exact h1
      simp [alistSet, h, alistGet, h1, h2]
    · by_cases hp : p.1 = k'
      · simp [alistSet, h, alistGet, hp, hne]
      · simp [alistSet, h, alistGet, hp, ih]

/-- The segment copy stored by the result loop: the segment re-keyed by
its decimal start time. -/
def segKeyed (sg : Segment) : Segment :=
  ⟨sg.url, toString sg.time, sg.time, sg.duration, sg.repId, sg.isInit⟩

theorem resultStep_err (st : SessionState) (r : DownloadResultM) (e : String)
    (he : r.error = some e) : resultStep st r = st := by
  unfold resultStep
  rw [he]

theorem resultStep_init (st : SessionState) (r : DownloadResultM) (he : r.error = none)
    (hi : r.segment.isInit = true) : resultStep st r = st := by
  unfold resultStep
  rw [he]
  simp [hi]

theorem resultStep_dup (st : SessionState) (r : DownloadResultM) (he : r.error = none)
    (hi : r.segment.isInit = false)
    (hdup : (availOf st r.segment.repId).any (fun s => s.id == toString r.segment.time) = true) :
    resultStep st r = st := by
  unfold resultStep
  rw [he]
  simp [hi, hdup]

theorem resultStep_append (st : SessionState) (r : DownloadResultM) (he : r.error = none)
    (hi : r.segment.isInit = false)
    (hdup : (availOf st r.segment.repId).any (fun s => s.id == toString r.segment.time) = false)
    (hlen : ¬playlistLiveSegments + 2 < (availOf st r.segment.repId).length + 1) :
    resultStep st r
      = { st with
          availableSegments :=
            alistSet st.availableSegments r.segment.repId
              (availOf st r.segment.repId ++ [segKeyed r.segment]) } := by
  unfold resultStep
  rw [he]
  simp [hi, hdup, hlen, segKeyed]

theorem resultStep_drop (st : SessionState) (r : DownloadResultM) (he : r.error = none)
    (hi : r.segment.isInit = false)
    (hdup : (availOf st r.segment.repId).any (fun s => s.id == toString r.segment.time) = false)
    (hlen : playlistLiveSegments + 2 < (availOf st r.segment.repId).length + 1) :
    resultStep st r
      = { st with
          availableSegments :=
            alistSet st.availableSegments r.segment.repId
              ((availOf st r.segment.repId ++ [segKeyed r.segment]).drop 1),
          mediaSequence :=
            alistSet st.mediaSequence r.segment.repId (mseqOf st r.segment.repId + 1) } := by
  unfold resultStep
  rw [he]
  simp [hi, hdup, hlen, segKeyed]

/-- C6: the result-ingest step preserves, for every representation, that
the sliding window has pairwise-distinct segment ids and length at most
`playlistLiveSegments + 2 = 7`; ingesting a duplicate id leaves the state
unchanged; and when the window is full, the append drops exactly the
oldest entry and increments the representation's media sequence by one,
leaving every other representation untouched. -/
theorem resultStep_window (st : SessionState) (r : DownloadResultM)
    (h : ∀ rep, ((availOf st rep).map Segment.id).Nodup
        ∧ (availOf st rep).length ≤ playlistLiveSegments + 2) :
    (∀ rep, ((availOf (resultStep st r) rep).map Segment.id).Nodup
        ∧ (availOf (resultStep st r) rep).length ≤ playlistLiveSegments + 2)
    ∧ (r.error = none → r.segment.isInit = false →
        (availOf st r.segment.repId).any (fun s => s.id == toString r.segment.time) = true →
        resultStep st r = st)
    ∧ (r.error = none → r.segment.isInit = false →
        (availOf st r.segment.repId).any (fun s => s.id == toString r.segment.time) = false →
        (availOf st r.segment.repId).length = playlistLiveSegments + 2 →
        availOf (resultStep st r) r.segment.repId
            = (availOf st r.segment.repId).drop 1 ++ [segKeyed r.segment]
          ∧ mseqOf (resultStep st r) r.segment.repId = mseqOf st r.segment.repId + 1
          ∧ (∀ rep, rep ≠ r.segment.repId →
              availOf (resultStep st r) rep = availOf st rep
              ∧ mseqOf (resultStep st r) rep = mseqOf st rep)) := by
  cases he : r.error with
  | some e =>
    have hid := resultStep_err st r e he
    refine ⟨fun rep => by rw [hid]; exact h rep, ?_, ?_⟩
    · intro h0
      cases h0
    · intro h0
      cases h0
  | none =>
    cases hi : r.segment.isInit with
    | true =>
      have hid := resultStep_init st r he hi
      refine ⟨fun rep => by rw [hid]; exact h rep, fun _ _ _ => hid, ?_⟩
      intro _ h1
      cases h1
    | false =>
      cases hdup : (availOf st r.segment.repId).any (fun s => s.id == toString r.segment.time) with
      | true =>
        have hid := resultStep_dup st r he hi hdup
        refine ⟨fun rep => by rw [hid]; exact h rep, fun _ _ _ => hid, ?_⟩
        intro _ _ hd2
        cases hd2
      | false =>
        have hnotin : toString r.segment.time ∉ (availOf st r.segment.repId).map Segment.id := by
          intro hmem
          rcases List.mem_map.mp hmem with ⟨s, hs, hsid⟩
          have hfalse := List.any_eq_false.mp hdup s hs
          rw [hsid] at hfalse
          simp at hfalse
        have hnodup2 : ((availOf st r.segment.repId ++ [segKeyed r.segment]).map Segment.id).Nodup := by
          rw [List.map_append, List.nodup_append]
          refine ⟨(h r.segment.repId).1, by simp, ?_⟩
          intro x hx
          simp only [segKeyed, List.map_cons, List.map_nil, List.mem_singleton]
          intro hx1
          exact hnotin (hx1 ▸ hx)
        by_cases hlen : playlistLiveSegments + 2 < (availOf st r.segment.repId).length + 1
        · have hstep := resultStep_drop st r he hi hdup hlen
          refine ⟨?_, ?_, ?_⟩
          · intro rep
            by_cases hr : rep = r.segment.repId
            · rw [hr]
              have havail : availOf (resultStep st r) r.segment.repId
                  = (availOf st r.segment.repId ++ [segKeyed r.segment]).drop 1 := by
                rw [hstep]
                simp [availOf, alistGet_set_self]
              rw [havail]
              constructor
              · exact List.Nodup.sublist
                  (List.Sublist.map Segment.id (List.drop_sublist 1 _)) hnodup2
              · have hle := (h r.segment.repId).2
                simp only [List.length_drop, List.length_append, List.length_cons, List.length_nil]
                omega
            · have havail : availOf (resultStep st r) rep = availOf st rep := by
                rw [hstep]
                simp [availOf, alistGet_set_ne _ _ _ _ hr]
              rw [havail]
              exact h rep
          · intro _ _ hd2
            cases hd2
          · intro _ _ _ hl7
            refine ⟨?_, ?_, ?_⟩
            · have havail : availOf (resultStep st r) r.segment.repId
                  = (availOf st r.segment.repId ++ [segKeyed r.segment]).drop 1 := by
                rw [hstep]
                simp [availOf, alistGet_set_self]
              rw [havail,
                List.drop_append_of_le_length (by omega : 1 ≤ (availOf st r.segment.repId).length)]
            · rw [hstep]
              simp [mseqOf, alistGet_set_self]
            · intro rep hr
              rw [hstep]
              constructor
              · simp [availOf, alistGet_set_ne _ _ _ _ hr]
              · simp [mseqOf, alistGet_set_ne _ _ _ _ hr]
        · have hstep := resultStep_append st r he hi hdup hlen
          refine ⟨?_, ?_, ?_⟩
          · intro rep
            by_cases hr : rep = r.segment.repId
            · rw [hr]
              have havail : availOf (resultStep st r) r.segment.repId
                  = availOf st r.segment.repId ++ [segKeyed r.segment] := by
                rw [hstep]
                simp [availOf, alistGet_set_self]
              rw [havail]
              refine ⟨hnodup2, ?_⟩
              simp only [List.length_append, List.length_cons, List.length_nil]
              omega
            · have havail : availOf (resultStep st r) rep = availOf st rep := by
                rw [hstep]
                simp [availOf, alistGet_set_ne _ _ _ _ hr]
              rw [havail]
              exact h rep
          · intro _ _ hd2
            cases hd2
          · intro _ _ _ hl7
            exfalso
            apply hlen
            rw [hl7]
            omega

def stW : SessionState :=
  ⟨"ch", "http://m", "http://b", ⟨"", "", "", []⟩,
    [("v1",
      [⟨"", "1", 1, 6, "v1", false⟩, ⟨"", "2", 2, 6, "v1", false⟩, ⟨"", "3", 3, 6, "v1", false⟩,
       ⟨"", "4", 4, 6, "v1", false⟩, ⟨"", "5", 5, 6, "v1", false⟩, ⟨"", "6", 6, 6, "v1", false⟩,
       ⟨"", "7", 7, 6, "v1", false⟩])],
    [], [("v1", 3)], 90000, 100⟩

/-- A successful media download result for segment t=8 of v1. -/
def resW : DownloadResultM := ⟨⟨"http://seg8", "ch/v1/8", 8, 6, "v1", false⟩, [0, 1], none⟩

/-- Witness for C6: ingesting t=8 into the full window of `stW` keeps the
invariant, drops the oldest segment and bumps the media sequence. -/
theorem resultStep_window_witness :
    (∀ rep, ((availOf stW rep).map Segment.id).Nodup
        ∧ (availOf stW rep).length ≤ playlistLiveSegments + 2)
    ∧ (∀ rep, ((availOf (resultStep stW resW) rep).map Segment.id).Nodup
        ∧ (availOf (resultStep stW resW) rep).length ≤ playlistLiveSegments + 2)
    ∧ (availOf (resultStep stW resW) "v1"
          = (availOf stW "v1").drop 1 ++ [segKeyed resW.segment]
        ∧ mseqOf (resultStep stW resW) "v1" = mseqOf stW "v1" + 1
        ∧ (∀ rep, rep ≠ "v1" →
            availOf (resultStep stW resW) rep = availOf stW rep
            ∧ mseqOf (resultStep stW resW) rep = mseqOf stW rep)) := by
  have hw : ∀ rep, ((availOf stW rep).map Segment.id).Nodup
      ∧ (availOf stW rep).length ≤ playlistLiveSegments + 2 := by
    intro rep
    by_cases hr : ("v1" : String) = rep
    · rw [← hr]; decide
    · have hnone : alistGet stW.availableSegments rep = none := by
        simp [stW, alistGet, hr]
      simp [availOf, hnone]
  exact ⟨hw, (resultStep_window stW resW hw).1,
    (resultStep_window stW resW hw).2.2 rfl rfl (by decide) (by decide)⟩

/-- All session-state fields other than the playlist cache agree. -/
def sameButPlaylist (a b : SessionState) : Prop :=
  a.channelId = b.channelId ∧ a.manifestURL = b.manifestURL ∧ a.baseURL = b.baseURL
  ∧ a.mpd = b.mpd ∧ a.availableSegments = b.availableSegments
  ∧ a.mediaSequence = b.mediaSequence ∧ a.sessionTimescale = b.sessionTimescale
  ∧ a.currentTargetTime = b.currentTargetTime

theorem sameButPlaylist_refl (a : SessionState) : sameButPlaylist a a :=
  ⟨rfl, rfl, rfl, rfl, rfl, rfl, rfl, rfl⟩

theorem sameButPlaylist_trans {a b c : SessionState}
    (h1 : sameButPlaylist a b) (h2 : sameButPlaylist b c) : sameButPlaylist a c := by
  obtain ⟨a1, a2, a3, a4, a5, a6, a7, a8⟩ := h1
  obtain ⟨b1, b2, b3, b4, b5, b6, b7, b8⟩ := h2
  exact ⟨a1.trans b1, a2.trans b2, a3.trans b3, a4.trans b4, a5.trans b5,
    a6.trans b6, a7.trans b7, a8.trans b8⟩

theorem updateRepPlaylist_frame (st : SessionState) (as : AdaptationSet) (rep : Representation) :
    sameButPlaylist (updateRepPlaylist st as rep) st := by
  unfold updateRepPlaylist
  by_cases h1 : (availOf st rep.id).isEmpty
  · simp only [h1, if_true]
    exact sameButPlaylist_refl st
  · simp only [h1, Bool.false_eq_true, if_false]
    cases hg : generateMediaPlaylist st.mpd st.channelId as.contentType rep.id (mseqOf st rep.id)
        (if (availOf st rep.id).length > playlistLiveSegments then
          (availOf st rep.id).drop ((availOf st rep.id).length - playlistLiveSegments)
        else availOf st rep.id) with
    | error e => simp only [hg]; exact sameButPlaylist_refl st
    | ok pl => simp only [hg]; exact ⟨rfl, rfl, rfl, rfl, rfl, rfl, rfl, rfl⟩

theorem foldl_frame {β : Type} (f : SessionState → β → SessionState)
    (hf : ∀ s b, sameButPlaylist (f s b) s) :
    ∀ (l : List β) (s : SessionState), sameButPlaylist (l.foldl f s) s := by
  intro l
  induction l with
  | nil => intro s; exact sameButPlaylist_refl s
  | cons b l ih => intro s; exact sameButPlaylist_trans (ih (f s b)) (hf s b)

theorem updatePlaylists_frame (st : SessionState) : sameButPlaylist (updatePlaylists st) st := by
  unfold updatePlaylists
  apply foldl_frame
  intro s1 p
  apply foldl_frame
  intro s2 as
  apply foldl_frame
  intro s3 rep
  exact updateRepPlaylist_frame s3 as rep

/-- C10: the playlist-publish operation modifies only the playlist cache:
every other session-state field — the sliding windows (so a window longer
than `playlistLiveSegments` keeps its full stored length; the trim is on a
local copy), the media sequences, the playhead, and the MPD snapshot — is
unchanged. -/
theorem updatePlaylists_frame_effect (st : SessionState) :
    (updatePlaylists st).availableSegments = st.availableSegments
    ∧ (updatePlaylists st).mediaSequence = st.mediaSequence
    ∧ (updatePlaylists st).currentTargetTime = st.currentTargetTime
    ∧ (updatePlaylists st).mpd = st.mpd
    ∧ (updatePlaylists st).channelId = st.channelId
    ∧ (updatePlaylists st).manifestURL = st.manifestURL
    ∧ (updatePlaylists st).baseURL = st.baseURL
    ∧ (updatePlaylists st).sessionTimescale = st.sessionTimescale
    ∧ (∀ rep, availOf (updatePlaylists st) rep = availOf st rep) := by
  obtain ⟨h1, h2, h3, h4, h5, h6, h7, h8⟩ := updatePlaylists_frame st
  exact ⟨h5, h6, h8, h4, h1, h2, h3, h7, fun rep => by simp [availOf, h5]⟩

theorem resultStep_ctt (st : SessionState) (r : DownloadResultM) :
    (resultStep st r).currentTargetTime = st.currentTargetTime := by
  cases he : r.error with
  | some e => rw [resultStep_err st r e he]
  | none =>
    cases hi : r.segment.isInit with
    | true => rw [resultStep_init st r he hi]
    | false =>
      cases hdup : (availOf st r.segment.repId).any
          (fun s => s.id == toString r.segment.time) with
      | true => rw [resultStep_dup st r he hi hdup]
      | false =>
        by_cases hlen : playlistLiveSegments + 2 < (availOf st r.segment.repId).length + 1
        · rw [resultStep_drop st r he hi hdup hlen]
        · rw [resultStep_append st r he hi hdup hlen]

/-- C5: the virtual playhead never decreases. On a download tick (with the
float playhead conversion and URL resolution abstracted as oracles) the
playhead either stays or advances by exactly the scheduled video segment
duration, provided the uint64 addition does not wrap; an MPD refresh, a
result ingest, and a playlist publish leave it unchanged. -/
theorem currentTargetTime_monotone (st : SessionState)
    (repTarget : Nat → Period → AdaptationSet → Option Nat)
    (buildURL : Period → AdaptationSet → Representation → Nat → Option String)
    (cacheHas : String → Bool) (newMpd : MPD) (newBase : String) (res : DownloadResultM)
    (h64 : st.currentTargetTime + (scheduleFold st repTarget buildURL cacheHas).1 < 2 ^ 64) :
    st.currentTargetTime ≤ (downloadNextSegments st repTarget buildURL cacheHas).1.currentTargetTime
    ∧ (st.sessionTimescale ≠ 0 →
        (downloadNextSegments st repTarget buildURL cacheHas).1.currentTargetTime
          = st.currentTargetTime + (scheduleFold st repTarget buildURL cacheHas).1)
    ∧ (refreshMPD st newMpd newBase).currentTargetTime = st.currentTargetTime
    ∧ (resultStep st res).currentTargetTime = st.currentTargetTime
    ∧ (updatePlaylists st).currentTargetTime = st.currentTargetTime := by
  have hdl : st.sessionTimescale ≠ 0 →
      (downloadNextSegments st repTarget buildURL cacheHas).1.currentTargetTime
        = st.currentTargetTime + (scheduleFold st repTarget buildURL cacheHas).1 := by
    intro hne
    unfold downloadNextSegments
    simp only [hne, if_false]
    by_cases hv : (scheduleFold st repTarget buildURL cacheHas).1 > 0
    · simp only [hv, if_true]
      show uadd st.currentTargetTime _ = _
      unfold uadd
      exact Nat.mod_eq_of_lt h64
    · have hz : (scheduleFold st repTarget buildURL cacheHas).1 = 0 := by omega
      simp [hv, hz]
  refine ⟨?_, hdl, rfl, resultStep_ctt st res, (updatePlaylists_frame st).2.2.2.2.2.2.2⟩
  by_cases hne : st.sessionTimescale = 0
  · unfold downloadNextSegments
    simp [hne]
  · rw [hdl hne]
    omega

/-- A small initialized session state, used as the C5 witness. -/
def st0 : SessionState := ⟨"ch", "http://m", "http://b", ⟨"", "", "", []⟩, [], [], [], 90000, 100⟩

/-- Witness for C5 at `st0` with empty oracles. -/
theorem currentTargetTime_monotone_witness :
    (st0.currentTargetTime
        + (scheduleFold st0 (fun _ _ _ => none) (fun _ _ _ _ => none) (fun _ => false)).1 < 2 ^ 64)
    ∧ st0.currentTargetTime
        ≤ (downloadNextSegments st0 (fun _ _ _ => none) (fun _ _ _ _ => none)
            (fun _ => false)).1.currentTargetTime :=
  ⟨by decide,
    (currentTargetTime_monotone st0 (fun _ _ _ => none) (fun _ _ _ _ => none) (fun _ => false)
      ⟨"", "", "", []⟩ "" ⟨⟨"", "", 0, 0, "", false⟩, [], none⟩ (by decide)).1⟩

end D2H
